import Mathlib

/-!
# Verification of the dredger core: tree acquisition, token accounting,
# and the documentation pipeline

A shallow embedding of the Rust sources under `src/`:

* `src/github_client/data.rs`   — `RepoNode`, `RepoContent`
* `src/github_client/client.rs` — `fetch_file_content`, `read_repo_recursive`, `read_repo`
* `src/utils/tokens.rs`         — `TokenizerError`, `count_tokens`
* `src/utils/errors.rs`         — `DredgerError`
* `src/ollama_client/client.rs` — `process_repo`, `extract_comments`,
  `extract_project_context`, the streaming-response concatenation loop

External effects (HTTP responses, the tokenizer library, the model server)
are modelled as explicit oracle values supplied to the embedded functions,
so that each embedded function is a pure function of the code path it takes
in the source.
-/

/-! ## Error types (`src/utils/tokens.rs`, `src/utils/errors.rs`) -/

/-- `TokenizerError` from `src/utils/tokens.rs`. -/
inductive TokenizerError where
| FileNotFound (path : String)
| LoadError (msg : String)
| TokenizationError (msg : String)
deriving DecidableEq

/-- `DredgerError` from `src/utils/errors.rs`.  Payloads that are opaque
library values in Rust (`reqwest::Error`, `io::Error`, `serde_json::Error`,
`env::VarError`) are modelled without a payload. -/
inductive DredgerError where
| GithubClientError (msg : String)
| OllamaClientError (msg : String)
| TokenizerError (e : TokenizerError)
| ReqwestError
| IoError
| JsonError
| OtherError (msg : String)
| VarError
deriving DecidableEq

/-! ## Data model (`src/github_client/data.rs`) -/

/-- `RepoNode` from `src/github_client/data.rs`. -/
inductive RepoNode where
| File (name path content : String) (token_count : Nat)
| Directory (name path : String) (children : List RepoNode) (token_count : Nat)

/-- `RepoNode::token_count` from `src/github_client/data.rs`. -/
def RepoNode.token_count : RepoNode → Nat
| .File _ _ _ tc => tc
| .Directory _ _ _ tc => tc

/-! ## Tokenizer adapter (`src/utils/tokens.rs`)

The `tokenizers` crate is external; we model one tokenizer configuration as
an oracle recording the file-existence check, the result of
`Tokenizer::from_file`, and the result of `tokenizer.encode` on each input
(`encode` returns the id list; `count_tokens` takes its length). -/

structure TokenizerOracle where
  tokenizer_path : String
  pathExists : Bool
  load : Except String Unit
  encode : String → Except String (List Nat)

/-- `count_tokens` from `src/utils/tokens.rs`: maps an `encode` failure to
`TokenizerError::TokenizationError` and otherwise returns
`encoding.get_ids().len()`. -/
def count_tokens (content : String) (tok : TokenizerOracle) : Except TokenizerError Nat :=
  match tok.encode content with
  | .error e => .error (.TokenizationError e)
  | .ok ids => .ok ids.length

/-! ## Remote repository model

`read_repo_recursive` issues one listing request per directory path and one
content request per file.  We model the remote side as a tree: at each
directory path, either the listing request fails (transport error, JSON
parse error — both mapped to `DredgerError::ReqwestError` by the source —
or a non-success HTTP status), or it returns the entry list, each entry
carrying its `RepoContent` fields and, for `"dir"` entries, the remote
subtree at that path. -/

/-- Outcome of `fetch_file_content` for one file, classified as in the
source: success with the decoded text, or one of the failure paths (all of
which make `fetch_file_content` return `Err`). -/
inductive FetchResult where
| success (text : String)
| httpError (status : Nat)
| transportError
| noContentField
| decodeError
deriving DecidableEq

/-- The `Result` produced by `fetch_file_content` at its call site in
`read_repo_recursive` (`src/github_client/client.rs:78-86`): every
non-success classification is an `Err`. -/
def fetched_content : FetchResult → Except Unit String
| .success t => .ok t
| _ => .error ()

/-- The `name`, `path`, `type` fields of one `RepoContent` entry of a
directory listing, plus the remote outcome of fetching that entry's
content if it is requested as a file. -/
structure EntryMeta where
  name : String
  path : String
  ty : String
  fetch : FetchResult
deriving DecidableEq

/-- The remote repository as seen through the contents endpoint, rooted at
one path. -/
inductive Remote where
| transportErr
| parseErr
| httpError (status : Nat)
| ok (entries : List (EntryMeta × Remote))

/-! ## Tree builder (`src/github_client/client.rs`) -/

/-- Computation outcome: `panicked` models a Rust panic — the process
aborts carrying the unwrapped error — which is distinct from returning
`Err` to the caller.  The only panic site in the embedded code is the
`.unwrap()` on `count_tokens` at `src/github_client/client.rs:104`. -/
inductive Outcome (α : Type) where
| ok (val : α)
| err (e : DredgerError)
| panicked (e : TokenizerError)
deriving DecidableEq

/-- The placeholder installed by `unwrap_or_else` when a file's content
fetch fails (`src/github_client/client.rs:86`). -/
def placeholder_content : String := "Failed to fetch content"

/-- The `content` binding of the file branch of `read_repo_recursive`
(`src/github_client/client.rs:78-86`): the fetched text on success, the
fixed placeholder otherwise. -/
def content_of (f : FetchResult) : String :=
  match fetched_content f with
  | .ok t => t
  | .error _ => placeholder_content

/-- The token count the builder stores for a file content when encoding
succeeds (junk value 0 on the failure branch, which `tokenizer_fine`
excludes). -/
def count_of (tok : TokenizerOracle) (s : String) : Nat :=
  match tok.encode s with
  | .ok ids => ids.length
  | .error _ => 0

mutual

/-- `read_repo_recursive` from `src/github_client/client.rs:46-147`.
Listing transport and JSON-parse failures map to
`DredgerError::ReqwestError`; a non-success status maps to
`DredgerError::GithubClientError`; on success the children are assembled
in listing order and the directory node carries the sum of the children's
token counts. -/
def read_repo_recursive (tok : TokenizerOracle) (path : String) : Remote → Outcome RepoNode
| .transportErr => .err .ReqwestError
| .parseErr => .err .ReqwestError
| .httpError status =>
  .err (.GithubClientError ("Failed to fetch repository contents: " ++ toString status))
| .ok entries =>
  match process_entries tok entries with
  | .ok children =>
    .ok (.Directory path path children (List.sum (children.map RepoNode.token_count)))
  | .err e => .err e
  | .panicked e => .panicked e

/-- The `for file in repo_contents` loop body of `read_repo_recursive`
(`src/github_client/client.rs:76-125`), processed left to right with the
source's early-exit behavior on `Err` and on panic. -/
def process_entries (tok : TokenizerOracle) : List (EntryMeta × Remote) → Outcome (List RepoNode)
| [] => .ok []
| (m, sub) :: rest =>
  if m.ty = "file" then
    if tok.pathExists = false then
      .err (.TokenizerError (.FileNotFound tok.tokenizer_path))
    else
      match tok.load with
      | .error e => .err (.TokenizerError (.LoadError e))
      | .ok _ =>
        match count_tokens (content_of m.fetch) tok with
        | .error e => .panicked e
        | .ok token_count =>
          match process_entries tok rest with
          | .ok cs => .ok (.File m.name m.path (content_of m.fetch) token_count :: cs)
          | .err e => .err e
          | .panicked e => .panicked e
  else if m.ty = "dir" then
    match read_repo_recursive tok m.path sub with
    | .ok node =>
      match process_entries tok rest with
      | .ok cs => .ok (node :: cs)
      | .err e => .err e
      | .panicked e => .panicked e
    | .err e => .err e
    | .panicked e => .panicked e
  else
    process_entries tok rest

end

/-- `read_repo` from `src/github_client/client.rs:160-183`: reads the
`GITHUB_PAT` environment variable (modelled as an `Option String`), fails
with `DredgerError::VarError` when it is absent, and otherwise starts the
recursion at path `""`. -/
def read_repo (tok : TokenizerOracle) (github_pat : Option String) (remote : Remote) :
    Outcome RepoNode :=
  match github_pat with
  | none => .err .VarError
  | some _ => read_repo_recursive tok "" remote

/-! ## Token-sum invariant (claim C1) -/

mutual

/-- Every `Directory` node of the tree carries exactly the sum of its
direct children's token counts, recursively. -/
def tree_sums_consistent : RepoNode → Bool
| .File _ _ _ _ => true
| .Directory _ _ children tc =>
  (tc == List.sum (children.map RepoNode.token_count)) && forest_sums_consistent children

def forest_sums_consistent : List RepoNode → Bool
| [] => true
| n :: rest => tree_sums_consistent n && forest_sums_consistent rest

end

/-! ## Listing-health and tokenizer-health predicates, and the expected
tree under healthy conditions (used by claims C4, C5, C10) -/

mutual

/-- Every listing request reachable through `"dir"` entries succeeds. -/
def listing_ok : Remote → Bool
| .ok entries => entries_ok entries
| _ => false

def entries_ok : List (EntryMeta × Remote) → Bool
| [] => true
| (m, sub) :: rest => (if m.ty = "dir" then listing_ok sub else true) && entries_ok rest

end

/-- The tokenizer neither fails to be found, nor fails to load, nor fails
to encode any input. -/
def tokenizer_fine (tok : TokenizerOracle) : Prop :=
  tok.pathExists = true ∧ tok.load = .ok () ∧ ∀ s, ∃ ids, tok.encode s = .ok ids

mutual

/-- The tree `read_repo_recursive` is expected to return when the
tokenizer is fine and every reachable listing succeeds (junk on listing
failure, which `listing_ok` excludes). -/
def build_spec (tok : TokenizerOracle) (path : String) : Remote → RepoNode
| .ok entries =>
  .Directory path path (entries_spec tok entries)
    (List.sum ((entries_spec tok entries).map RepoNode.token_count))
| _ => .Directory path path [] 0

def entries_spec (tok : TokenizerOracle) : List (EntryMeta × Remote) → List RepoNode
| [] => []
| (m, sub) :: rest =>
  if m.ty = "file" then
    .File m.name m.path (content_of m.fetch) (count_of tok (content_of m.fetch))
      :: entries_spec tok rest
  else if m.ty = "dir" then
    build_spec tok m.path sub :: entries_spec tok rest
  else
    entries_spec tok rest

end

/-- The error constructors of `DredgerError` that realize the spec's
`RemoteError` class (transport failure or non-success HTTP response):
the source maps listing transport and parse failures to
`DredgerError::ReqwestError` and non-success statuses to
`DredgerError::GithubClientError`. -/
def is_remote_error : DredgerError → Bool
| .GithubClientError _ => true
| .ReqwestError => true
| _ => false

/-! ## Concrete sample oracles and remotes, used by witness theorems -/

/-- A tokenizer oracle that always succeeds, counting one token per byte. -/
def tokOK : TokenizerOracle :=
  { tokenizer_path := "tokenizers/llama.json", pathExists := true, load := .ok ()
    encode := fun s => .ok (List.replicate s.length 0) }

/-- A tokenizer oracle whose `encode` always fails. -/
def tokEncodeFails : TokenizerOracle :=
  { tokenizer_path := "tokenizers/llama.json", pathExists := true, load := .ok ()
    encode := fun _ => .error "malformed" }

/-- A two-level healthy remote: a file `a.py` and a subdirectory `sub`
holding `b.py`. -/
def rem1 : Remote :=
  .ok [({ name := "a.py", path := "a.py", ty := "file", fetch := .success "hi" }, .ok []),
       ({ name := "sub", path := "sub", ty := "dir", fetch := .success "" },
        .ok [({ name := "b.py", path := "sub/b.py", ty := "file", fetch := .success "x" },
              .ok [])])]

/-- A remote whose root listing succeeds but whose subdirectory listing
returns HTTP 500. -/
def remBadSub : Remote :=
  .ok [({ name := "a.py", path := "a.py", ty := "file", fetch := .success "hi" }, .ok []),
       ({ name := "sub", path := "sub", ty := "dir", fetch := .success "" }, .httpError 500)]

/-- A file entry whose content fetch returns HTTP 404. -/
def metaBadFetch : EntryMeta :=
  { name := "bad.rs", path := "bad.rs", ty := "file", fetch := .httpError 404 }

/-- A listing with one file whose content fetch returns HTTP 404 and one
healthy sibling file. -/
def remBadFetchEntries : List (EntryMeta × Remote) :=
  [(metaBadFetch, .ok []),
   ({ name := "good.rs", path := "good.rs", ty := "file", fetch := .success "ok" }, .ok [])]

/-- The number of listing entries of type `"file"` or `"dir"` — exactly
the entries the builder turns into children (all other types are
skipped by the `if`/`else if` chain). -/
def kept_count : List (EntryMeta × Remote) → Nat
| [] => 0
| (m, _) :: rest => (if m.ty = "file" ∨ m.ty = "dir" then 1 else 0) + kept_count rest

/-! ## Rust string primitives used by the ollama client

`str::lines` splits at `\n`, also consuming a preceding `\r`, and the
final line ending is optional; `Vec::join("\n")` interleaves `"\n"`;
`str::trim` strips whitespace from both ends (modelled for the ASCII
whitespace characters); `str::ends_with` / `str::starts_with` are
suffix / prefix tests. -/

/-- Split a character list at every `'\n'`. -/
def split_newlines : List Char → List (List Char)
| [] => [[]]
| c :: rest =>
  if c = '\n' then [] :: split_newlines rest
  else
    match split_newlines rest with
    | [] => [[c]]
    | l :: ls => (c :: l) :: ls

/-- `str::lines` over a character list: split at `'\n'`, drop the final
empty piece produced by a trailing newline, and strip one trailing
`'\r'` from each line (so both `\n` and `\r\n` terminate a line). -/
def rust_lines_list (s : List Char) : List (List Char) :=
  let parts := split_newlines s
  let parts := match parts.getLast? with
    | some [] => parts.dropLast
    | _ => parts
  parts.map (fun l => if l.getLast? = some '\r' then l.dropLast else l)

/-- `str::lines` on a `String`. -/
def rust_lines (s : String) : List String :=
  (rust_lines_list s.data).map (fun cs => String.mk cs)

/-- `Vec<String>::join("\n")`. -/
def joinNL : List String → String
| [] => ""
| [l] => l
| l :: rest => l ++ "\n" ++ joinNL rest

/-- `str::trim_start` restricted to the ASCII whitespace characters
(`Char.isWhitespace`); the source only ever feeds it program text. -/
def rust_trim_start : List Char → List Char
| [] => []
| c :: rest => if c.isWhitespace then rust_trim_start rest else c :: rest

/-- `str::trim` (ASCII whitespace). -/
def rust_trim (s : List Char) : List Char :=
  (rust_trim_start (rust_trim_start s).reverse).reverse

/-- `str::ends_with`. -/
def str_ends_with (s suffix : String) : Bool :=
  List.isSuffixOf suffix.data s.data

/-! ## Ollama client (`src/ollama_client/client.rs`) -/

/-- `DredgerDoc` from `src/ollama_client/client.rs:22-26`. -/
structure DredgerDoc where
  file_path : String
  comments : String
deriving DecidableEq

/-- `extract_comments` from `src/ollama_client/client.rs:202-208`: keep
the lines whose trimmed text starts with `"//"`, joined by newline. -/
def extract_comments (output : String) : String :=
  joinNL ((rust_lines output).filter
    (fun line => List.isPrefixOf ['/', '/'] (rust_trim line.data)))

/-- `extract_project_context` from `src/ollama_client/client.rs:210-216`:
the first 10 lines of the README, joined by newline. -/
def extract_project_context (readme : String) : String :=
  joinNL ((rust_lines readme).take 10)

/-- The README test of `process_repo`
(`src/ollama_client/client.rs:127`). -/
def is_readme_path (path : String) : Bool :=
  str_ends_with path "README" || str_ends_with path "README.md"

mutual

/-- Weight of a tree, used as termination measure for the explicit-stack
loops of `process_repo`. -/
def node_weight : RepoNode → Nat
| .File _ _ _ _ => 1
| .Directory _ _ children _ => 1 + node_weight_list children

def node_weight_list : List RepoNode → Nat
| [] => 0
| n :: rest => node_weight n + node_weight_list rest

end

/-- Step 1 of `process_repo` (`src/ollama_client/client.rs:124-138`): the
`while let Some(node) = stack.pop()` loop.  The `Vec` stack is modelled
with its top at the head, so pushing the children of a directory in
order makes them visited in reverse order, children before the rest of
the stack; the loop breaks at the first file whose path passes the
README test, yielding `extract_project_context` of its content, and
falls through to the empty string when the stack is exhausted. -/
def find_readme_context : List RepoNode → String
| [] => ""
| .File _ path content _ :: rest =>
  if str_ends_with path "README" || str_ends_with path "README.md" then
    extract_project_context content
  else find_readme_context rest
| .Directory _ _ children _ :: rest => find_readme_context (children.reverse ++ rest)
termination_by stack => node_weight_list stack
decreasing_by
all_goals
  simp_wf
  have happ : ∀ (a b : List RepoNode),
      node_weight_list (a ++ b) = node_weight_list a + node_weight_list b := by
    intro a b
    induction a with
    | nil => rw [node_weight_list]; simp
    | cons x xs ih => rw [List.cons_append, node_weight_list, node_weight_list, ih]; omega
  have hrev : ∀ (a : List RepoNode), node_weight_list a.reverse = node_weight_list a := by
    intro a
    induction a with
    | nil => rfl
    | cons x xs ih =>
      rw [List.reverse_cons, happ, node_weight_list, node_weight_list, node_weight_list, ih]
      omega
  first
  | (rw [happ, hrev, node_weight_list, node_weight]; omega)
  | (rw [node_weight_list, node_weight]; omega)

/-- The file nodes of a stack in visitation order of the
`process_repo` loops, with their paths and contents. -/
def dfs_files : List RepoNode → List (String × String)
| [] => []
| .File _ path content _ :: rest => (path, content) :: dfs_files rest
| .Directory _ _ children _ :: rest => dfs_files (children.reverse ++ rest)
termination_by stack => node_weight_list stack
decreasing_by
all_goals
  simp_wf
  have happ : ∀ (a b : List RepoNode),
      node_weight_list (a ++ b) = node_weight_list a + node_weight_list b := by
    intro a b
    induction a with
    | nil => rw [node_weight_list]; simp
    | cons x xs ih => rw [List.cons_append, node_weight_list, node_weight_list, ih]; omega
  have hrev : ∀ (a : List RepoNode), node_weight_list a.reverse = node_weight_list a := by
    intro a
    induction a with
    | nil => rfl
    | cons x xs ih =>
      rw [List.reverse_cons, happ, node_weight_list, node_weight_list, node_weight_list, ih]
      omega
  first
  | (rw [happ, hrev, node_weight_list, node_weight]; omega)
  | (rw [node_weight_list, node_weight]; omega)

/-- Step 1.5 of `process_repo` (`src/ollama_client/client.rs:140-152`):
summarize a non-empty project context through the model oracle, mapping
any failure to the empty string. -/
def summarize_step (summarize : String → Except Unit String)
    (project_context : String) : String :=
  if ¬ project_context = "" then
    match summarize project_context with
    | .ok summary => summary
    | .error _ => ""
  else ""

/-- The context `process_repo` ends up using for the per-file prompts
(`src/ollama_client/client.rs:120-159`): the README excerpt from step 1,
replaced by the model summary only when that summary is non-empty. -/
def context_for_prompts (summarize : String → Except Unit String) (root : RepoNode) : String :=
  let project_context := find_readme_context [root]
  let project_summary := summarize_step summarize project_context
  if ¬ project_summary = "" then project_summary else project_context

/-- Step 2 of `process_repo` (`src/ollama_client/client.rs:161-197`):
the second `while let Some(node) = stack.pop()` loop.  Files not ending
in `".rs"` are skipped before any query; for the rest the doc-query
oracle is consulted and a `DredgerDoc` is recorded only when the
extracted comment block is non-empty; a query failure is logged and
skipped.  Besides the collected docs the embedding also returns the log
of paths for which the query oracle was invoked, in visit order. -/
def process_files (query : String → String → String → Except Unit String) (ctx : String) :
    List RepoNode → List DredgerDoc × List String
| [] => ([], [])
| .File _ path content _ :: rest =>
  if str_ends_with path ".rs" = false then
    process_files query ctx rest
  else
    match query ctx path content with
    | .ok response =>
      if ¬ extract_comments response = "" then
        (⟨path, extract_comments response⟩ :: (process_files query ctx rest).1,
         path :: (process_files query ctx rest).2)
      else
        ((process_files query ctx rest).1, path :: (process_files query ctx rest).2)
    | .error _ =>
      ((process_files query ctx rest).1, path :: (process_files query ctx rest).2)
| .Directory _ _ children _ :: rest => process_files query ctx (children.reverse ++ rest)
termination_by stack => node_weight_list stack
decreasing_by
all_goals
  simp_wf
  have happ : ∀ (a b : List RepoNode),
      node_weight_list (a ++ b) = node_weight_list a + node_weight_list b := by
    intro a b
    induction a with
    | nil => rw [node_weight_list]; simp
    | cons x xs ih => rw [List.cons_append, node_weight_list, node_weight_list, ih]; omega
  have hrev : ∀ (a : List RepoNode), node_weight_list a.reverse = node_weight_list a := by
    intro a
    induction a with
    | nil => rfl
    | cons x xs ih =>
      rw [List.reverse_cons, happ, node_weight_list, node_weight_list, node_weight_list, ih]
      omega
  first
  | (rw [happ, hrev, node_weight_list, node_weight]; omega)
  | (rw [node_weight_list, node_weight]; omega)

/-- `process_repo` from `src/ollama_client/client.rs:117-200`, with the
model calls supplied as oracles.  The Rust function returns
`Ok(doc_results)` on every path — no failure aborts it — so the
embedding is a total function; it returns the collected docs, the
context used for per-file prompts, and the query log of step 2. -/
def process_repo (summarize : String → Except Unit String)
    (query : String → String → String → Except Unit String) (root : RepoNode) :
    List DredgerDoc × String × List String :=
  let ctx := context_for_prompts summarize root
  let res := process_files query ctx [root]
  (res.1, ctx, res.2)

/-- A root directory holding only a README file, used as concrete input
for claims about the context pipeline. -/
def readmeRoot : RepoNode :=
  .Directory "" "" [.File "README.md" "README.md" "hello docs" 2] 2

/-- A summarizer oracle that always fails (the model endpoint is down). -/
def failing_summarizer : String → Except Unit String := fun _ => .error ()

/-- A doc-query oracle that always answers with one comment line. -/
def const_query : String → String → String → Except Unit String :=
  fun _ _ _ => .ok "//! sample doc"

/-- A root directory holding one Rust file and one non-Rust file, used as
concrete input for the skip claim. -/
def mixedRoot : RepoNode :=
  .Directory "" ""
    [.File "notes.txt" "notes.txt" "just notes" 2,
     .File "lib.rs" "lib.rs" "fn f() \x7b\x7d" 3] 5

/-! ## JSON line parsing (`serde_json::from_str::<OllamaChunk>`)

The streaming loop of `query_ollama_for_doc`
(`src/ollama_client/client.rs:62-71`) feeds each line of each chunk to
`serde_json::from_str::<OllamaChunk>` where
`struct OllamaChunk \x7b response: Option<String> \x7d`.  We model the
library call with a recursive-descent JSON parser (RFC 8259 grammar;
`\u` escapes are decoded as single scalar values, surrogate pairs are
not recombined) followed by serde's struct visitor: the top value must
be an object, an absent or `null` `response` field gives `none`, a
string gives `some`, any other type or a duplicate `response` field is
an error, and unknown fields are ignored. -/

/-- Opening brace character. -/
def lbrace : Char := Char.ofNat 123

/-- Closing brace character. -/
def rbrace : Char := Char.ofNat 125

/-- JSON insignificant whitespace. -/
def json_ws_char (c : Char) : Bool :=
  c = ' ' || c = '\t' || c = '\n' || c = '\r'

/-- Drop leading JSON whitespace. -/
def skip_json_ws : List Char → List Char
| [] => []
| c :: rest => if json_ws_char c then skip_json_ws rest else c :: rest

/-- Value of one hexadecimal digit. -/
def hex_val (c : Char) : Option Nat :=
  if '0' ≤ c ∧ c ≤ '9' then some (c.toNat - 48)
  else if 'a' ≤ c ∧ c ≤ 'f' then some (c.toNat - 87)
  else if 'A' ≤ c ∧ c ≤ 'F' then some (c.toNat - 55)
  else none

/-- Decimal digit test. -/
def is_digit (c : Char) : Bool := 48 ≤ c.toNat && c.toNat ≤ 57

/-- Split off a maximal run of decimal digits. -/
def take_digits : List Char → List Char × List Char
| [] => ([], [])
| c :: rest =>
  if is_digit c then
    match take_digits rest with
    | (ds, rem) => (c :: ds, rem)
  else ([], c :: rest)

/-- Match an expected literal character sequence. -/
def expect_lit : List Char → List Char → Option (List Char)
| [], s => some s
| e :: es, c :: s => if c = e then expect_lit es s else none
| _ :: _, [] => none

/-- Parse the body of a JSON string after the opening quote, returning
the decoded characters and the input after the closing quote. -/
def parse_string_chars : Nat → List Char → Option (List Char × List Char)
| 0, _ => none
| _ + 1, [] => none
| fuel + 1, c :: rest =>
  if c = '"' then some ([], rest)
  else if c = '\\' then
    match rest with
    | [] => none
    | e :: rest2 =>
      if e = 'u' then
        match rest2 with
        | h1 :: h2 :: h3 :: h4 :: rest3 =>
          match hex_val h1, hex_val h2, hex_val h3, hex_val h4 with
          | some v1, some v2, some v3, some v4 =>
            if (((v1 * 16 + v2) * 16 + v3) * 16 + v4).isValidChar then
              match parse_string_chars fuel rest3 with
              | some (cs, rem) =>
                some (Char.ofNat (((v1 * 16 + v2) * 16 + v3) * 16 + v4) :: cs, rem)
              | none => none
            else none
          | _, _, _, _ => none
        | _ => none
      else
        match (if e = '"' then some '"' else if e = '\\' then some '\\'
               else if e = '/' then some '/' else if e = 'b' then some (Char.ofNat 8)
               else if e = 'f' then some (Char.ofNat 12) else if e = 'n' then some '\n'
               else if e = 'r' then some '\r' else if e = 't' then some '\t' else none) with
        | some ec =>
          match parse_string_chars fuel rest2 with
          | some (cs, rem) => some (ec :: cs, rem)
          | none => none
        | none => none
  else if c.toNat < 32 then none
  else
    match parse_string_chars fuel rest with
    | some (cs, rem) => some (c :: cs, rem)
    | none => none

/-- Parse a JSON number, returning its lexeme. -/
def parse_number (s : List Char) : Option (List Char × List Char) :=
  let (neg, s1) := match s with
    | '-' :: rest => (['-'], rest)
    | _ => (([] : List Char), s)
  match s1 with
  | [] => none
  | c :: rest =>
    if c = '0' ∨ ¬ is_digit c = true then
      if c = '0' then
        let (frac, s2) := parse_frac_exp rest
        some (neg ++ ['0'] ++ frac, s2)
      else none
    else
      match take_digits (c :: rest) with
      | (ds, s2) =>
        let (frac, s3) := parse_frac_exp s2
        some (neg ++ ds ++ frac, s3)
where
  /-- Parse the optional fraction and exponent parts. -/
  parse_frac_exp (s : List Char) : List Char × List Char :=
    let (fr, s1) := match s with
      | '.' :: rest =>
        (match take_digits rest with
         | ([], _) => (([] : List Char), '.' :: rest)
         | (ds, rem) => ('.' :: ds, rem))
      | _ => ([], s)
    match s1 with
    | e :: rest =>
      if e = 'e' ∨ e = 'E' then
        let (sgn, rest2) := match rest with
          | '+' :: r => (['+'], r)
          | '-' :: r => (['-'], r)
          | _ => (([] : List Char), rest)
        match take_digits rest2 with
        | ([], _) => (fr, s1)
        | (ds, rem) => (fr ++ e :: sgn ++ ds, rem)
      else (fr, s1)
    | [] => (fr, s1)

/-- A JSON value; numbers keep their lexeme. -/
inductive Json where
| null
| bool (b : Bool)
| num (lexeme : String)
| str (s : String)
| arr (items : List Json)
| obj (fields : List (String × Json))

mutual

/-- Parse one JSON value (leading whitespace allowed). -/
def parse_json_value : Nat → List Char → Option (Json × List Char)
| 0, _ => none
| fuel + 1, s =>
  match skip_json_ws s with
  | [] => none
  | c :: rest =>
    if c = '"' then
      match parse_string_chars fuel rest with
      | some (cs, rem) => some (.str (String.mk cs), rem)
      | none => none
    else if c = lbrace then
      match skip_json_ws rest with
      | c1 :: rest1 =>
        if c1 = rbrace then some (.obj [], rest1)
        else
          match parse_json_members fuel (c1 :: rest1) with
          | some (ms, rem) => some (.obj ms, rem)
          | none => none
      | [] => none
    else if c = '[' then
      match skip_json_ws rest with
      | c1 :: rest1 =>
        if c1 = ']' then some (.arr [], rest1)
        else
          match parse_json_items fuel (c1 :: rest1) with
          | some (vs, rem) => some (.arr vs, rem)
          | none => none
      | [] => none
    else if c = 't' then
      match expect_lit ['r', 'u', 'e'] rest with
      | some rem => some (.bool true, rem)
      | none => none
    else if c = 'f' then
      match expect_lit ['a', 'l', 's', 'e'] rest with
      | some rem => some (.bool false, rem)
      | none => none
    else if c = 'n' then
      match expect_lit ['u', 'l', 'l'] rest with
      | some rem => some (.null, rem)
      | none => none
    else
      match parse_number (c :: rest) with
      | some (lex, rem) => some (.num (String.mk lex), rem)
      | none => none

/-- Parse the members of a JSON object after its opening brace, up to
and including the closing brace. -/
def parse_json_members : Nat → List Char → Option (List (String × Json) × List Char)
| 0, _ => none
| fuel + 1, s =>
  match skip_json_ws s with
  | c :: rest =>
    if c = '"' then
      match parse_string_chars fuel rest with
      | some (kcs, rem1) =>
        match skip_json_ws rem1 with
        | ':' :: rem2 =>
          match parse_json_value fuel rem2 with
          | some (v, rem3) =>
            match skip_json_ws rem3 with
            | ',' :: rem4 =>
              match parse_json_members fuel rem4 with
              | some (ms, rem5) => some ((String.mk kcs, v) :: ms, rem5)
              | none => none
            | c2 :: rem4 =>
              if c2 = rbrace then some ([(String.mk kcs, v)], rem4) else none
            | [] => none
          | none => none
        | _ => none
      | none => none
    else none
  | [] => none

/-- Parse the items of a JSON array after its opening bracket, up to and
including the closing bracket. -/
def parse_json_items : Nat → List Char → Option (List Json × List Char)
| 0, _ => none
| fuel + 1, s =>
  match parse_json_value fuel s with
  | some (v, rem) =>
    match skip_json_ws rem with
    | ',' :: rem2 =>
      match parse_json_items fuel rem2 with
      | some (vs, rem3) => some (v :: vs, rem3)
      | none => none
    | ']' :: rem2 => some ([v], rem2)
    | _ => none
  | none => none

end

/-- Serde's struct visitor for `OllamaChunk` over the parsed field list:
the first `response` field sets the result (string or null), a second
one is a duplicate-field error, any other field is ignored. -/
def chunk_fields : List (String × Json) → Option String → Bool → Option (Option String)
| [], acc, _ => some acc
| (k, v) :: rest, acc, seen =>
  if k = "response" then
    if seen then none
    else
      match v with
      | .str s => chunk_fields rest (some s) true
      | .null => chunk_fields rest none true
      | _ => none
  else chunk_fields rest acc seen

/-- Deserialize a parsed JSON value as `OllamaChunk`: the value must be
an object. -/
def ollama_chunk_of_json : Json → Option (Option String)
| .obj fields => chunk_fields fields none false
| _ => none

/-- `serde_json::from_str::<OllamaChunk>(line)`: parse one JSON value,
require the rest of the line to be whitespace, and deserialize.
`none` models `Err`; `some r` models `Ok(OllamaChunk \x7b response: r \x7d)`. -/
def parse_ollama_chunk (line : String) : Option (Option String) :=
  match parse_json_value (line.length + 1) line.data with
  | some (v, rest) => if skip_json_ws rest = [] then ollama_chunk_of_json v else none
  | none => none

/-- The streaming loop of `query_ollama_for_doc`
(`src/ollama_client/client.rs:60-71`): for each received chunk, for each
of its lines, a line that deserializes as an `OllamaChunk` with a
`response` fragment appends that fragment to `full_response`; every
other line is skipped. -/
def collect_stream_response (chunks : List String) : String :=
  chunks.foldl (fun acc chunk =>
    (rust_lines chunk).foldl (fun acc2 line =>
      match parse_ollama_chunk line with
      | some (some text) => acc2 ++ text
      | _ => acc2) acc) ""

/-- Concatenation of a list of strings in order. -/
def concat_all : List String → String
| [] => ""
| s :: rest => s ++ concat_all rest

/-! ## Base64 and UTF-8, for the `fetch_file_content` decode pipeline

`fetch_file_content` (`src/github_client/client.rs:33-39`) takes the
inline `content` field — base64, line-wrapped by the hosting API —
strips embedded newlines with `.replace("\n", "")`, decodes it with
`BASE64_STANDARD.decode` (standard alphabet, canonical padding
required), and converts the bytes with `String::from_utf8_lossy`.  We
model the pipeline at the byte/scalar level: a text is a list of Unicode
scalar values, bytes are `Nat` below 256, and the lossy conversion
replaces every invalid sequence with U+FFFD. -/

/-- A Unicode scalar value: below `0x110000` and not a surrogate. -/
def ValidScalar (cp : Nat) : Prop :=
  cp < 0x110000 ∧ ¬ (0xD800 ≤ cp ∧ cp ≤ 0xDFFF)

instance (cp : Nat) : Decidable (ValidScalar cp) :=
  inferInstanceAs (Decidable (cp < 0x110000 ∧ ¬ (0xD800 ≤ cp ∧ cp ≤ 0xDFFF)))

/-- UTF-8 encoding of one scalar value. -/
def utf8_encode_cp (cp : Nat) : List Nat :=
  if cp < 0x80 then [cp]
  else if cp < 0x800 then [0xC0 + cp / 64, 0x80 + cp % 64]
  else if cp < 0x10000 then [0xE0 + cp / 4096, 0x80 + (cp / 64) % 64, 0x80 + cp % 64]
  else [0xF0 + cp / 262144, 0x80 + (cp / 4096) % 64, 0x80 + (cp / 64) % 64, 0x80 + cp % 64]

/-- UTF-8 encoding of a text. -/
def utf8_encode (text : List Nat) : List Nat :=
  text.flatMap utf8_encode_cp

/-- A UTF-8 continuation byte. -/
def utf8_cont (b : Nat) : Prop := 0x80 ≤ b ∧ b ≤ 0xBF

instance (b : Nat) : Decidable (utf8_cont b) :=
  inferInstanceAs (Decidable (0x80 ≤ b ∧ b ≤ 0xBF))

/-- Validity of the first continuation byte after lead `b`: a
continuation byte, tightened for the leads `E0`/`ED`/`F0`/`F4` so that
overlong forms, surrogates and values above `0x10FFFF` are rejected. -/
def utf8_b1_ok (b b1 : Nat) : Prop :=
  (b = 0xE0 → 0xA0 ≤ b1) ∧
  (b = 0xED → b1 ≤ 0x9F) ∧
  (b = 0xF0 → 0x90 ≤ b1) ∧
  (b = 0xF4 → b1 ≤ 0x8F) ∧
  (0x80 ≤ b1 ∧ b1 ≤ 0xBF)

instance (b b1 : Nat) : Decidable (utf8_b1_ok b b1) :=
  inferInstanceAs (Decidable ((b = 0xE0 → 0xA0 ≤ b1) ∧ (b = 0xED → b1 ≤ 0x9F) ∧
    (b = 0xF0 → 0x90 ≤ b1) ∧ (b = 0xF4 → b1 ≤ 0x8F) ∧ (0x80 ≤ b1 ∧ b1 ≤ 0xBF)))

/-- Decode one UTF-8 sequence with lead byte `b` followed by `rest`:
returns the scalar value and how many bytes of `rest` it consumed, or
U+FFFD consuming none of `rest` when the sequence is malformed. -/
def utf8_step (b : Nat) (rest : List Nat) : Nat × Nat :=
  if b < 0x80 then (b, 0)
  else if 0xC2 ≤ b ∧ b ≤ 0xDF then
    match rest with
    | b1 :: _ =>
      if utf8_b1_ok b b1 then ((b - 0xC0) * 64 + (b1 - 0x80), 1) else (0xFFFD, 0)
    | [] => (0xFFFD, 0)
  else if 0xE0 ≤ b ∧ b ≤ 0xEF then
    match rest with
    | b1 :: b2 :: _ =>
      if utf8_b1_ok b b1 ∧ utf8_cont b2 then
        ((b - 0xE0) * 4096 + (b1 - 0x80) * 64 + (b2 - 0x80), 2)
      else (0xFFFD, 0)
    | _ => (0xFFFD, 0)
  else if 0xF0 ≤ b ∧ b ≤ 0xF4 then
    match rest with
    | b1 :: b2 :: b3 :: _ =>
      if utf8_b1_ok b b1 ∧ utf8_cont b2 ∧ utf8_cont b3 then
        ((b - 0xF0) * 262144 + (b1 - 0x80) * 4096 + (b2 - 0x80) * 64 + (b3 - 0x80), 3)
      else (0xFFFD, 0)
    | _ => (0xFFFD, 0)
  else (0xFFFD, 0)

/-- `String::from_utf8_lossy` at the scalar level: well-formed sequences
decode to their scalar value, malformed ones contribute U+FFFD and the
decoding resumes after the offending lead byte. -/
def utf8_lossy_decode : List Nat → List Nat
| [] => []
| b :: rest =>
  (utf8_step b rest).1 :: utf8_lossy_decode (List.drop (utf8_step b rest).2 rest)
termination_by bs => bs.length
decreasing_by
simp_wf
omega

/-- The standard base64 alphabet. -/
def b64_chr (v : Nat) : Char :=
  if v < 26 then Char.ofNat (65 + v)
  else if v < 52 then Char.ofNat (97 + (v - 26))
  else if v < 62 then Char.ofNat (48 + (v - 52))
  else if v = 62 then '+' else '/'

/-- Inverse of the standard base64 alphabet. -/
def b64_val (c : Char) : Option Nat :=
  if 'A' ≤ c ∧ c ≤ 'Z' then some (c.toNat - 65)
  else if 'a' ≤ c ∧ c ≤ 'z' then some (c.toNat - 97 + 26)
  else if '0' ≤ c ∧ c ≤ '9' then some (c.toNat - 48 + 52)
  else if c = '+' then some 62
  else if c = '/' then some 63
  else none

/-- Standard base64 encoding with padding, three bytes per quad. -/
def base64_encode : List Nat → List Char
| [] => []
| [b0] => [b64_chr (b0 / 4), b64_chr ((b0 % 4) * 16), '=', '=']
| [b0, b1] =>
  [b64_chr (b0 / 4), b64_chr ((b0 % 4) * 16 + b1 / 16), b64_chr ((b1 % 16) * 4), '=']
| b0 :: b1 :: b2 :: rest =>
  b64_chr (b0 / 4) :: b64_chr ((b0 % 4) * 16 + b1 / 16) :: b64_chr ((b1 % 16) * 4 + b2 / 64)
    :: b64_chr (b2 % 64) :: base64_encode rest

/-- `BASE64_STANDARD.decode`: quads of alphabet characters, `=` padding
only in the final quad, input length a multiple of four, canonical
padding (no trailing bits). -/
def base64_decode : List Char → Option (List Nat)
| [] => some []
| c0 :: c1 :: c2 :: c3 :: rest =>
  match b64_val c0, b64_val c1 with
  | some v0, some v1 =>
    if c2 = '=' then
      if c3 = '=' ∧ rest = [] ∧ v1 % 16 = 0 then some [v0 * 4 + v1 / 16] else none
    else
      match b64_val c2 with
      | some v2 =>
        if c3 = '=' then
          if rest = [] ∧ v2 % 4 = 0 then some [v0 * 4 + v1 / 16, (v1 % 16) * 16 + v2 / 4]
          else none
        else
          match b64_val c3 with
          | some v3 =>
            match base64_decode rest with
            | some bs =>
              some ((v0 * 4 + v1 / 16) :: ((v1 % 16) * 16 + v2 / 4) :: ((v2 % 4) * 64 + v3) :: bs)
            | none => none
          | none => none
      | none => none
  | _, _ => none
| _ => none

/-- Countdown helper for `line_wrap`: insert `'\n'` whenever the counter
hits zero, then restart it. -/
def line_wrap_aux (n : Nat) : Nat → List Char → List Char
| _, [] => []
| 0, c :: rest => '\n' :: c :: line_wrap_aux n (n - 1) rest
| k + 1, c :: rest => c :: line_wrap_aux n k rest

/-- The hosting API's convention of line-wrapping the base64 payload:
a `'\n'` after every `n` characters (no trailing newline). -/
def line_wrap (n : Nat) (cs : List Char) : List Char :=
  match cs with
  | [] => []
  | c :: rest => c :: line_wrap_aux n (n - 1) rest

/-- `encoded_content.replace("\n", "")`
(`src/github_client/client.rs:37`). -/
def strip_newlines (cs : List Char) : List Char :=
  cs.filter (fun c => c != '\n')

/-- The decode pipeline of `fetch_file_content`
(`src/github_client/client.rs:36-38`): strip embedded newlines, base64
decode (failure propagates as `Err`), lossily convert to UTF-8. -/
def decode_fetched_payload (encoded : List Char) : Option (List Nat) :=
  match base64_decode (strip_newlines encoded) with
  | some bytes => some (utf8_lossy_decode bytes)
  | none => none

mutual

theorem read_repo_recursive_sums (tok : TokenizerOracle) (path : String) (r : Remote)
    (n : RepoNode) (h : read_repo_recursive tok path r = .ok n) :
    tree_sums_consistent n = true := by
  cases r with
  | transportErr => simp [read_repo_recursive] at h
  | parseErr => simp [read_repo_recursive] at h
  | httpError s => simp [read_repo_recursive] at h
  | ok entries =>
    rw [read_repo_recursive] at h
    cases hp : process_entries tok entries with
    | ok children =>
      rw [hp] at h
      cases h
      have ih := process_entries_sums tok entries children hp
      simp [tree_sums_consistent, ih]
    | err e => rw [hp] at h; cases h
    | panicked e => rw [hp] at h; cases h

theorem process_entries_sums (tok : TokenizerOracle) (l : List (EntryMeta × Remote))
    (cs : List RepoNode) (h : process_entries tok l = .ok cs) :
    forest_sums_consistent cs = true := by
  match l with
  | [] =>
    rw [process_entries] at h
    cases h
    rfl
  | (m, sub) :: rest =>
    rw [process_entries] at h
    by_cases hty : m.ty = "file"
    · simp only [hty, if_pos rfl] at h
      cases hex : tok.pathExists with
      | false => rw [hex] at h; simp at h
      | true =>
        rw [hex] at h
        rw [if_neg (by decide : ¬(true = false))] at h
        cases hload : tok.load with
        | error e => rw [hload] at h; cases h
        | ok u =>
          rw [hload] at h
          cases hct : count_tokens (content_of m.fetch) tok with
          | error e => rw [hct] at h; cases h
          | ok tc =>
            rw [hct] at h
            cases hrest : process_entries tok rest with
            | ok cs' =>
              rw [hrest] at h
              cases h
              have ih := process_entries_sums tok rest cs' hrest
              simp [forest_sums_consistent, tree_sums_consistent, ih]
            | err e => rw [hrest] at h; cases h
            | panicked e => rw [hrest] at h; cases h
    · simp only [hty, if_neg hty] at h
      by_cases hd : m.ty = "dir"
      · simp only [hd, if_pos rfl] at h
        cases hsub : read_repo_recursive tok m.path sub with
        | ok node =>
          rw [hsub] at h
          cases hrest : process_entries tok rest with
          | ok cs' =>
            rw [hrest] at h
            cases h
            have ih1 := read_repo_recursive_sums tok m.path sub node hsub
            have ih2 := process_entries_sums tok rest cs' hrest
            simp [forest_sums_consistent, ih1, ih2]
          | err e => rw [hrest] at h; cases h
          | panicked e => rw [hrest] at h; cases h
        | err e => rw [hsub] at h; cases h
        | panicked e => rw [hsub] at h; cases h
      · simp only [if_neg hd] at h
        exact process_entries_sums tok rest cs h

end

/-! ## Refinement: under a healthy tokenizer and healthy listings the
builder returns exactly the expected tree -/

mutual

theorem read_repo_recursive_refines (tok : TokenizerOracle) (path : String) (r : Remote)
    (hfine : tokenizer_fine tok) (hok : listing_ok r = true) :
    read_repo_recursive tok path r = .ok (build_spec tok path r) := by
  cases r with
  | transportErr => simp [listing_ok] at hok
  | parseErr => simp [listing_ok] at hok
  | httpError s => simp [listing_ok] at hok
  | ok entries =>
    rw [listing_ok] at hok
    rw [read_repo_recursive, process_entries_refines tok entries hfine hok, build_spec]

theorem process_entries_refines (tok : TokenizerOracle) (l : List (EntryMeta × Remote))
    (hfine : tokenizer_fine tok) (hok : entries_ok l = true) :
    process_entries tok l = .ok (entries_spec tok l) := by
  match l with
  | [] => rw [process_entries, entries_spec]
  | (m, sub) :: rest =>
    rw [entries_ok, Bool.and_eq_true] at hok
    obtain ⟨hsub, hrest⟩ := hok
    rw [process_entries, entries_spec]
    by_cases hty : m.ty = "file"
    · rw [if_pos hty, if_pos hty]
      obtain ⟨hex, hld, henc⟩ := hfine
      obtain ⟨ids, hids⟩ := henc (content_of m.fetch)
      have hcount : count_tokens (content_of m.fetch) tok = .ok ids.length := by
        simp [count_tokens, hids]
      have hcnt2 : count_of tok (content_of m.fetch) = ids.length := by
        simp [count_of, hids]
      rw [hex, if_neg (by decide : ¬(true = false)), hld, hcount,
        process_entries_refines tok rest ⟨hex, hld, henc⟩ hrest, hcnt2]
    · rw [if_neg hty, if_neg hty]
      by_cases hd : m.ty = "dir"
      · rw [if_pos hd] at hsub
        rw [if_pos hd, if_pos hd,
          read_repo_recursive_refines tok m.path sub hfine hsub,
          process_entries_refines tok rest hfine hrest]
      · rw [if_neg hd, if_neg hd]
        exact process_entries_refines tok rest hfine hrest

end

/-! ## A failing listing makes the whole build fail -/

mutual

theorem read_repo_recursive_not_ok (tok : TokenizerOracle) (path : String) (r : Remote)
    (h : listing_ok r = false) : ∀ n, read_repo_recursive tok path r ≠ .ok n := by
  intro n hn
  cases r with
  | transportErr => simp [read_repo_recursive] at hn
  | parseErr => simp [read_repo_recursive] at hn
  | httpError s => simp [read_repo_recursive] at hn
  | ok entries =>
    rw [listing_ok] at h
    rw [read_repo_recursive] at hn
    cases hp : process_entries tok entries with
    | ok children => exact process_entries_not_ok tok entries h children hp
    | err e => rw [hp] at hn; cases hn
    | panicked e => rw [hp] at hn; cases hn

theorem process_entries_not_ok (tok : TokenizerOracle) (l : List (EntryMeta × Remote))
    (h : entries_ok l = false) : ∀ cs, process_entries tok l ≠ .ok cs := by
  intro cs hcs
  match l with
  | [] => rw [entries_ok] at h; cases h
  | (m, sub) :: rest =>
    rw [entries_ok] at h
    rw [process_entries] at hcs
    by_cases hty : m.ty = "file"
    · have hne : m.ty ≠ "dir" := by rw [hty]; decide
      rw [if_neg hne, Bool.true_and] at h
      rw [if_pos hty] at hcs
      cases hex : tok.pathExists with
      | false => rw [hex] at hcs; simp at hcs
      | true =>
        rw [hex, if_neg (by decide : ¬(true = false))] at hcs
        cases hld : tok.load with
        | error e => rw [hld] at hcs; cases hcs
        | ok u =>
          rw [hld] at hcs
          cases hct : count_tokens (content_of m.fetch) tok with
          | error e => rw [hct] at hcs; cases hcs
          | ok tc =>
            rw [hct] at hcs
            cases hre : process_entries tok rest with
            | ok cs' => exact process_entries_not_ok tok rest h cs' hre
            | err e => rw [hre] at hcs; cases hcs
            | panicked e => rw [hre] at hcs; cases hcs
    · rw [if_neg hty] at hcs
      by_cases hd : m.ty = "dir"
      · rw [if_pos hd] at hcs
        rw [if_pos hd] at h
        cases hsubok : listing_ok sub with
        | false =>
          cases hsub : read_repo_recursive tok m.path sub with
          | ok node => exact read_repo_recursive_not_ok tok m.path sub hsubok node hsub
          | err e => rw [hsub] at hcs; cases hcs
          | panicked e => rw [hsub] at hcs; cases hcs
        | true =>
          rw [hsubok, Bool.true_and] at h
          cases hsub : read_repo_recursive tok m.path sub with
          | ok node =>
            rw [hsub] at hcs
            cases hre : process_entries tok rest with
            | ok cs' => exact process_entries_not_ok tok rest h cs' hre
            | err e => rw [hre] at hcs; cases hcs
            | panicked e => rw [hre] at hcs; cases hcs
          | err e => rw [hsub] at hcs; cases hcs
          | panicked e => rw [hsub] at hcs; cases hcs
      · rw [if_neg hd] at hcs
        rw [if_neg hd, Bool.true_and] at h
        exact process_entries_not_ok tok rest h cs hcs

end

/-! ## Under a healthy tokenizer, a failing listing surfaces as a
remote-class error -/

mutual

theorem read_repo_recursive_err (tok : TokenizerOracle) (path : String) (r : Remote)
    (hf : tokenizer_fine tok) (h : listing_ok r = false) :
    ∃ e, read_repo_recursive tok path r = .err e ∧ is_remote_error e = true := by
  cases r with
  | transportErr => exact ⟨.ReqwestError, rfl, rfl⟩
  | parseErr => exact ⟨.ReqwestError, rfl, rfl⟩
  | httpError s =>
    exact ⟨.GithubClientError ("Failed to fetch repository contents: " ++ toString s), rfl, rfl⟩
  | ok entries =>
    rw [listing_ok] at h
    obtain ⟨e, he, hre⟩ := process_entries_err tok entries hf h
    exact ⟨e, by rw [read_repo_recursive, he], hre⟩

theorem process_entries_err (tok : TokenizerOracle) (l : List (EntryMeta × Remote))
    (hf : tokenizer_fine tok) (h : entries_ok l = false) :
    ∃ e, process_entries tok l = .err e ∧ is_remote_error e = true := by
  match l with
  | [] => rw [entries_ok] at h; cases h
  | (m, sub) :: rest =>
    rw [entries_ok] at h
    by_cases hty : m.ty = "file"
    · have hne : m.ty ≠ "dir" := by rw [hty]; decide
      rw [if_neg hne, Bool.true_and] at h
      obtain ⟨hex, hld, henc⟩ := hf
      obtain ⟨ids, hids⟩ := henc (content_of m.fetch)
      have hcount : count_tokens (content_of m.fetch) tok = .ok ids.length := by
        simp [count_tokens, hids]
      obtain ⟨e, he, hre⟩ := process_entries_err tok rest ⟨hex, hld, henc⟩ h
      refine ⟨e, ?_, hre⟩
      rw [process_entries, if_pos hty, hex, if_neg (by decide : ¬(true = false)), hld,
        hcount, he]
    · by_cases hd : m.ty = "dir"
      · rw [if_pos hd] at h
        cases hsubok : listing_ok sub with
        | false =>
          obtain ⟨e, he, hre⟩ := read_repo_recursive_err tok m.path sub hf hsubok
          refine ⟨e, ?_, hre⟩
          rw [process_entries, if_neg hty, if_pos hd, he]
        | true =>
          rw [hsubok, Bool.true_and] at h
          obtain ⟨e, he, hre⟩ := process_entries_err tok rest hf h
          refine ⟨e, ?_, hre⟩
          rw [process_entries, if_neg hty, if_pos hd,
            read_repo_recursive_refines tok m.path sub hf hsubok, he]
      · rw [if_neg hd, Bool.true_and] at h
        obtain ⟨e, he, hre⟩ := process_entries_err tok rest hf h
        exact ⟨e, by rw [process_entries, if_neg hty, if_neg hd, he], hre⟩

end

/-! ## Shape and bookkeeping helpers -/

theorem read_repo_recursive_ok_shape (tok : TokenizerOracle) (path : String) (r : Remote)
    (n : RepoNode) (h : read_repo_recursive tok path r = .ok n) :
    ∃ cs tc, n = .Directory path path cs tc := by
  cases r with
  | transportErr => simp [read_repo_recursive] at h
  | parseErr => simp [read_repo_recursive] at h
  | httpError s => simp [read_repo_recursive] at h
  | ok entries =>
    rw [read_repo_recursive] at h
    cases hp : process_entries tok entries with
    | ok children => rw [hp] at h; cases h; exact ⟨children, _, rfl⟩
    | err e => rw [hp] at h; cases h
    | panicked e => rw [hp] at h; cases h

theorem entries_spec_length (tok : TokenizerOracle) (l : List (EntryMeta × Remote)) :
    (entries_spec tok l).length = kept_count l := by
  induction l with
  | nil => rfl
  | cons e rest ih =>
    obtain ⟨m, sub⟩ := e
    rw [entries_spec, kept_count]
    by_cases hty : m.ty = "file"
    · simp [hty, ih]; omega
    · by_cases hd : m.ty = "dir"
      · simp [hty, hd, ih]; omega
      · simp [hty, hd, ih]

theorem entries_spec_mem (tok : TokenizerOracle) (l : List (EntryMeta × Remote))
    (m : EntryMeta) (sub : Remote) (hmem : (m, sub) ∈ l) (hty : m.ty = "file") :
    RepoNode.File m.name m.path (content_of m.fetch) (count_of tok (content_of m.fetch))
      ∈ entries_spec tok l := by
  induction l with
  | nil => cases hmem
  | cons e rest ih =>
    rcases List.mem_cons.mp hmem with he | hmem'
    · cases he
      rw [entries_spec, if_pos hty]
      exact List.mem_cons_self _ _
    · have h' := ih hmem'
      obtain ⟨m', sub'⟩ := e
      rw [entries_spec]
      by_cases h1 : m'.ty = "file"
      · rw [if_pos h1]; exact List.mem_cons_of_mem _ h'
      · by_cases h2 : m'.ty = "dir"
        · rw [if_neg h1, if_pos h2]; exact List.mem_cons_of_mem _ h'
        · rw [if_neg h1, if_neg h2]; exact h'

/-! ## Claim theorems -/

/-- C1: for every tree returned by the Tree Builder (`read_repo` /
`read_repo_recursive`), every `Directory` node's token count equals the
sum of its direct children's token counts, recursively down to the
leaves, including the root `Directory` itself. -/
theorem c1_directory_token_sums :
    (∀ (tok : TokenizerOracle) (path : String) (r : Remote) (n : RepoNode),
      read_repo_recursive tok path r = .ok n → tree_sums_consistent n = true) ∧
    (∀ (tok : TokenizerOracle) (pat : Option String) (r : Remote) (n : RepoNode),
      read_repo tok pat r = .ok n → tree_sums_consistent n = true) := by
  refine ⟨fun tok path r n h => read_repo_recursive_sums tok path r n h, ?_⟩
  intro tok pat r n h
  cases pat with
  | none => simp [read_repo] at h
  | some t => exact read_repo_recursive_sums tok "" r n h

/-- C1 witness: the invariant evaluated on the concrete tree built from
the sample remote `rem1`. -/
theorem c1_directory_token_sums_witness :
    tree_sums_consistent
      (.Directory "" ""
        [.File "a.py" "a.py" "hi" 2,
         .Directory "sub" "sub" [.File "b.py" "sub/b.py" "x" 1] 1] 3) = true :=
  c1_directory_token_sums.1 tokOK "" rem1 _ (by rfl)

/-- C2, evaluated at the failing input: when tokenization of a file's
content fails, the embedded `read_repo_recursive` panics through the
`.unwrap()` at `src/github_client/client.rs:104`; the caller never
receives a `DredgerError::TokenizerError (TokenizationError _)` — the
outcome is a panic, not an `Err`. -/
theorem c2_tokenization_failure_panics :
    read_repo_recursive tokEncodeFails ""
        (.ok [({ name := "a.rs", path := "a.rs", ty := "file", fetch := .success "x" },
               .ok [])])
      = .panicked (.TokenizationError "malformed") ∧
    ∀ e : DredgerError,
      read_repo_recursive tokEncodeFails ""
          (.ok [({ name := "a.rs", path := "a.rs", ty := "file", fetch := .success "x" },
                 .ok [])])
        ≠ .err e := by
  refine ⟨rfl, ?_⟩
  intro e h
  have h1 : read_repo_recursive tokEncodeFails ""
      (.ok [({ name := "a.rs", path := "a.rs", ty := "file", fetch := .success "x" },
             .ok [])])
      = .panicked (.TokenizationError "malformed") := rfl
  rw [h1] at h
  exact Outcome.noConfusion h

/-- C4: a file entry whose content fetch fails does not abort the build:
under a healthy tokenizer and healthy listings the build succeeds, the
failing file's node carries exactly the placeholder string, and every
sibling entry of type file or dir still contributes a child. -/
theorem c4_fetch_failure_downgraded
    (tok : TokenizerOracle) (path : String) (entries : List (EntryMeta × Remote))
    (m : EntryMeta) (sub : Remote)
    (hfine : tokenizer_fine tok) (hok : listing_ok (.ok entries) = true)
    (hmem : (m, sub) ∈ entries) (hty : m.ty = "file")
    (hfetch : fetched_content m.fetch = .error ()) :
    ∃ cs tc, read_repo_recursive tok path (.ok entries) = .ok (.Directory path path cs tc) ∧
      RepoNode.File m.name m.path placeholder_content (count_of tok placeholder_content) ∈ cs ∧
      cs.length = kept_count entries := by
  have hco : content_of m.fetch = placeholder_content := by
    rw [content_of, hfetch]
  refine ⟨entries_spec tok entries,
    List.sum ((entries_spec tok entries).map RepoNode.token_count), ?_, ?_, ?_⟩
  · rw [read_repo_recursive_refines tok path _ hfine hok, build_spec]
  · have := entries_spec_mem tok entries m sub hmem hty
    rwa [hco] at this
  · exact entries_spec_length tok entries

/-- C4 witness: the sample listing `remBadFetchEntries`, whose first file
entry gets HTTP 404 on its content fetch. -/
theorem c4_fetch_failure_downgraded_witness :
    ∃ cs tc,
      read_repo_recursive tokOK "" (.ok remBadFetchEntries) = .ok (.Directory "" "" cs tc) ∧
      RepoNode.File "bad.rs" "bad.rs" placeholder_content (count_of tokOK placeholder_content)
        ∈ cs ∧
      cs.length = kept_count remBadFetchEntries :=
  c4_fetch_failure_downgraded tokOK "" remBadFetchEntries metaBadFetch (.ok [])
    ⟨rfl, rfl, fun s => ⟨_, rfl⟩⟩ (by rfl) (List.Mem.head _) rfl rfl

/-- C5: a directory-listing failure anywhere in the traversal is fatal:
no tree (not even a partial one) is ever returned, and — when the
tokenizer is healthy, so that no tokenizer failure preempts it — the
build fails with an error of the spec's RemoteError class
(`DredgerError::ReqwestError` or `DredgerError::GithubClientError`),
propagated up through every enclosing directory. -/
theorem c5_listing_failure_fatal :
    (∀ (tok : TokenizerOracle) (path : String) (r : Remote), listing_ok r = false →
      ∀ n, read_repo_recursive tok path r ≠ .ok n) ∧
    (∀ (tok : TokenizerOracle) (path : String) (r : Remote),
      tokenizer_fine tok → listing_ok r = false →
      ∃ e, read_repo_recursive tok path r = .err e ∧ is_remote_error e = true) :=
  ⟨fun tok path r h => read_repo_recursive_not_ok tok path r h,
   fun tok path r hf h => read_repo_recursive_err tok path r hf h⟩

/-- C5 witness: the sample remote `remBadSub`, whose subdirectory listing
returns HTTP 500. -/
theorem c5_listing_failure_fatal_witness :
    ∃ e, read_repo_recursive tokOK "" remBadSub = .err e ∧ is_remote_error e = true :=
  c5_listing_failure_fatal.2 tokOK "" remBadSub
    ⟨rfl, rfl, fun s => ⟨List.replicate s.length 0, rfl⟩⟩ rfl

/-- C10: on success `read_repo` always returns a `Directory` node (never a
`File`) whose name and path both equal the requested root path `""`, and
an empty directory listing yields a `Directory` with no children and
token count 0. -/
theorem c10_root_is_directory :
    (∀ (tok : TokenizerOracle) (pat : Option String) (r : Remote) (n : RepoNode),
      read_repo tok pat r = .ok n → ∃ cs tc, n = .Directory "" "" cs tc) ∧
    (∀ (tok : TokenizerOracle) (t : String),
      read_repo tok (some t) (.ok []) = .ok (.Directory "" "" [] 0)) := by
  constructor
  · intro tok pat r n h
    cases pat with
    | none => simp [read_repo] at h
    | some t => exact read_repo_recursive_ok_shape tok "" r n h
  · intro tok t
    rfl

/-- C10 witness: the shape property evaluated on the concrete tree built
from the sample remote `rem1`. -/
theorem c10_root_is_directory_witness :
    ∃ cs tc,
      (RepoNode.Directory "" ""
        [.File "a.py" "a.py" "hi" 2,
         .Directory "sub" "sub" [.File "b.py" "sub/b.py" "x" 1] 1] 3)
        = .Directory "" "" cs tc :=
  c10_root_is_directory.1 tokOK (some "token") rem1 _ (by rfl)

/-! ## The README search loop is a first-match search over the
visitation order -/

theorem find_readme_context_eq_find (nodes : List RepoNode) :
    find_readme_context nodes =
      (match (dfs_files nodes).find? (fun pc => is_readme_path pc.1) with
       | some pc => extract_project_context pc.2
       | none => "") := by
  induction nodes using find_readme_context.induct with
  | case1 => rw [find_readme_context, dfs_files]; rfl
  | case2 name path content tc rest h =>
    rw [find_readme_context, if_pos h, dfs_files,
      List.find?_cons_of_pos _ (by simpa [is_readme_path] using h)]
  | case3 name path content tc rest h ih =>
    rw [find_readme_context, if_neg h, dfs_files,
      List.find?_cons_of_neg _ (by simpa [is_readme_path] using h), ih]
  | case4 name path children tc rest ih =>
    rw [find_readme_context, dfs_files, ih]

/-- Every path the step-2 loop queries, and every doc it collects, comes
 from a file whose path ends in `".rs"`. -/
theorem process_files_rs_only (query : String → String → String → Except Unit String)
    (ctx : String) (nodes : List RepoNode) :
    (∀ q ∈ (process_files query ctx nodes).2, str_ends_with q ".rs" = true) ∧
    (∀ d ∈ (process_files query ctx nodes).1, str_ends_with d.file_path ".rs" = true) := by
  induction nodes using process_files.induct query ctx with
  | case1 => rw [process_files]; constructor <;> intro x hx <;> cases hx
  | case2 name path content tc rest h ih =>
    rw [process_files, if_pos h]
    exact ih
  | case3 name path content tc rest h t hq hne ih =>
    have hrs : str_ends_with path ".rs" = true := by
      cases hb : str_ends_with path ".rs"
      · exact absurd hb h
      · rfl
    rw [process_files, if_neg h]
    simp only [hq]
    rw [if_pos hne]
    constructor
    · intro q hqmem
      replace hqmem : q ∈ path :: (process_files query ctx rest).2 := hqmem
      rcases List.mem_cons.mp hqmem with rfl | hqmem'
      · exact hrs
      · exact ih.1 q hqmem'
    · intro d hdmem
      replace hdmem :
          d ∈ (⟨path, extract_comments t⟩ : DredgerDoc) :: (process_files query ctx rest).1 :=
        hdmem
      rcases List.mem_cons.mp hdmem with rfl | hdmem'
      · exact hrs
      · exact ih.2 d hdmem'
  | case4 name path content tc rest h t hq hcom ih =>
    have hrs : str_ends_with path ".rs" = true := by
      cases hb : str_ends_with path ".rs"
      · exact absurd hb h
      · rfl
    rw [process_files, if_neg h]
    simp only [hq]
    rw [if_neg hcom]
    constructor
    · intro q hqmem
      replace hqmem : q ∈ path :: (process_files query ctx rest).2 := hqmem
      rcases List.mem_cons.mp hqmem with rfl | hqmem'
      · exact hrs
      · exact ih.1 q hqmem'
    · exact ih.2
  | case5 name path content tc rest h u hq ih =>
    have hrs : str_ends_with path ".rs" = true := by
      cases hb : str_ends_with path ".rs"
      · exact absurd hb h
      · rfl
    rw [process_files, if_neg h]
    simp only [hq]
    constructor
    · intro q hqmem
      replace hqmem : q ∈ path :: (process_files query ctx rest).2 := hqmem
      rcases List.mem_cons.mp hqmem with rfl | hqmem'
      · exact hrs
      · exact ih.1 q hqmem'
    · exact ih.2
  | case6 name path children tc rest ih =>
    rw [process_files]
    exact ih

/-- C9: project-context extraction is a depth-first first-match search:
over any tree it returns the first 10 lines (joined by newline) of the
first file in visitation order whose path ends in `README` or
`README.md`, the empty string when no such file exists, and — being a
pure function of the tree — re-running it on the unchanged tree yields
the identical string. -/
theorem c9_project_context_first_match (root : RepoNode) :
    (find_readme_context [root] =
      (match (dfs_files [root]).find? (fun pc => is_readme_path pc.1) with
       | some pc => joinNL ((rust_lines pc.2).take 10)
       | none => "")) ∧
    find_readme_context [root] = find_readme_context [root] :=
  ⟨find_readme_context_eq_find [root], rfl⟩

/-- C8: a file whose path does not end in the recognized source extension
`".rs"` is skipped entirely by the per-file doc generator: its path never
enters the query log, and no `DredgerDoc` carries it. -/
theorem c8_non_rs_files_skipped
    (summarize : String → Except Unit String)
    (query : String → String → String → Except Unit String)
    (root : RepoNode) (p : String) (hp : str_ends_with p ".rs" = false) :
    p ∉ (process_repo summarize query root).2.2 ∧
    ∀ d ∈ (process_repo summarize query root).1, d.file_path ≠ p := by
  have h := process_files_rs_only query (context_for_prompts summarize root) [root]
  have hpr2 : (process_repo summarize query root).2.2
      = (process_files query (context_for_prompts summarize root) [root]).2 := rfl
  have hpr1 : (process_repo summarize query root).1
      = (process_files query (context_for_prompts summarize root) [root]).1 := rfl
  constructor
  · intro hmem
    rw [hpr2] at hmem
    have hq := h.1 p hmem
    rw [hp] at hq
    cases hq
  · intro d hd hdp
    rw [hpr1] at hd
    have hq := h.2 d hd
    rw [hdp, hp] at hq
    cases hq

/-- C8 witness: in the sample tree holding `notes.txt` and `lib.rs`, the
path `notes.txt` is never queried and yields no doc. -/
theorem c8_non_rs_files_skipped_witness :
    "notes.txt" ∉ (process_repo failing_summarizer const_query mixedRoot).2.2 ∧
    ∀ d ∈ (process_repo failing_summarizer const_query mixedRoot).1,
      d.file_path ≠ "notes.txt" :=
  c8_non_rs_files_skipped failing_summarizer const_query mixedRoot "notes.txt" (by decide)

/-- C3 counterexample: in a tree whose README reads `"hello docs"` and
whose summarization call fails, the context `process_repo` uses for the
per-file prompts is the raw excerpt `"hello docs"`, not the empty
string — the original claim fails at this input. -/
theorem c3_counterexample :
    (process_repo failing_summarizer const_query readmeRoot).2.1 = "hello docs" ∧
    ("hello docs" : String) ≠ "" := by
  constructor
  · have h : (process_repo failing_summarizer const_query readmeRoot).2.1
        = context_for_prompts failing_summarizer readmeRoot := rfl
    rw [h]
    simp [context_for_prompts, find_readme_context, readmeRoot, summarize_step,
      failing_summarizer]
    decide
  · decide

/-- C3 amended: if summarization of a non-empty project context fails,
the pipeline continues without aborting (the embedded `process_repo` is
total and returns its collected docs), and the context used for the
per-file prompts is the raw 10-line README excerpt — the raw excerpt IS
kept as the fallback, rather than the empty string. -/
theorem c3_summarization_failure_keeps_raw_excerpt
    (summarize : String → Except Unit String)
    (query : String → String → String → Except Unit String)
    (root : RepoNode)
    (hne : ¬ find_readme_context [root] = "")
    (hfail : summarize (find_readme_context [root]) = .error ()) :
    (process_repo summarize query root).2.1 = find_readme_context [root] := by
  have h1 : (process_repo summarize query root).2.1
      = context_for_prompts summarize root := rfl
  rw [h1]
  simp only [context_for_prompts, summarize_step]
  rw [if_pos hne, hfail]
  simp

/-- C3 witness: the amended claim evaluated on the sample README tree
with the failing summarizer. -/
theorem c3_summarization_failure_keeps_raw_excerpt_witness :
    (process_repo failing_summarizer const_query readmeRoot).2.1
      = find_readme_context [readmeRoot] :=
  c3_summarization_failure_keeps_raw_excerpt failing_summarizer const_query readmeRoot
    (by simp [find_readme_context, readmeRoot]; decide) rfl

/-! ## The streaming loop concatenates exactly the parsed fragments -/

theorem concat_all_append (a b : List String) :
    concat_all (a ++ b) = concat_all a ++ concat_all b := by
  induction a with
  | nil => rw [List.nil_append, concat_all]; exact (String.empty_append _).symm
  | cons s rest ih =>
    rw [List.cons_append, concat_all, concat_all, ih, String.append_assoc]

theorem collect_lines_fold (lines : List String) (acc : String) :
    lines.foldl (fun acc2 line =>
      match parse_ollama_chunk line with
      | some (some text) => acc2 ++ text
      | _ => acc2) acc
    = acc ++ concat_all (lines.filterMap (fun line => (parse_ollama_chunk line).bind id)) := by
  induction lines generalizing acc with
  | nil =>
    rw [List.foldl_nil, List.filterMap_nil, concat_all]
    exact (String.append_empty _).symm
  | cons l rest ih =>
    rw [List.foldl_cons, List.filterMap_cons]
    cases hp : parse_ollama_chunk l with
    | none => rw [ih acc]; rfl
    | some o =>
      cases o with
      | none => rw [ih acc]; rfl
      | some text =>
        rw [show List.foldl (fun acc2 line =>
            match parse_ollama_chunk line with
            | some (some text) => acc2 ++ text
            | _ => acc2) (acc ++ text) rest
          = (acc ++ text) ++ concat_all
              (rest.filterMap (fun line => (parse_ollama_chunk line).bind id)) from ih _,
          String.append_assoc]
        rfl

theorem collect_chunks_fold (chunks : List String) (acc : String) :
    chunks.foldl (fun acc chunk =>
      (rust_lines chunk).foldl (fun acc2 line =>
        match parse_ollama_chunk line with
        | some (some text) => acc2 ++ text
        | _ => acc2) acc) acc
    = acc ++ concat_all ((chunks.flatMap rust_lines).filterMap
        (fun line => (parse_ollama_chunk line).bind id)) := by
  induction chunks generalizing acc with
  | nil =>
    rw [List.foldl_nil, List.flatMap_nil, List.filterMap_nil, concat_all]
    exact (String.append_empty _).symm
  | cons c rest ih =>
    rw [List.foldl_cons, collect_lines_fold, ih, List.flatMap_cons, List.filterMap_append,
      concat_all_append, String.append_assoc]

/-- C7: the completion returned by the model-query stream loop is the
concatenation, in arrival order, of the `response` fragments of exactly
those lines that deserialize as JSON objects (non-JSON lines are
silently skipped); in particular the stream
`\x7b"response":"//! "\x7d\n\x7b"response":"hi"\x7d\n` yields `//! hi`. -/
theorem c7_stream_concatenation :
    (∀ chunks : List String,
      collect_stream_response chunks =
        concat_all ((chunks.flatMap rust_lines).filterMap
          (fun line => (parse_ollama_chunk line).bind id))) ∧
    collect_stream_response ["\x7b\"response\":\"//! \"\x7d\n\x7b\"response\":\"hi\"\x7d\n"]
      = "//! hi" := by
  constructor
  · intro chunks
    rw [collect_stream_response, collect_chunks_fold]
    exact String.empty_append _
  · decide

/-! ## UTF-8 round trip -/

theorem utf8_roundtrip_cp (cp : Nat) (h : ValidScalar cp) (rest : List Nat) :
    utf8_lossy_decode (utf8_encode_cp cp ++ rest) = cp :: utf8_lossy_decode rest := by
  obtain ⟨hlt, hsur⟩ := h
  by_cases h1 : cp < 0x80
  · have henc : utf8_encode_cp cp = [cp] := by rw [utf8_encode_cp, if_pos h1]
    rw [henc, List.cons_append, List.nil_append, utf8_lossy_decode]
    have hstep : utf8_step cp rest = (cp, 0) := by
      rw [utf8_step.eq_def, if_pos h1]
    rw [hstep]
    simp
  · by_cases h2 : cp < 0x800
    · have henc : utf8_encode_cp cp = [0xC0 + cp / 64, 0x80 + cp % 64] := by
        rw [utf8_encode_cp, if_neg h1, if_pos h2]
      rw [henc, List.cons_append, List.cons_append, List.nil_append, utf8_lossy_decode]
      have hstep : utf8_step (0xC0 + cp / 64) ((0x80 + cp % 64) :: rest) = (cp, 1) := by
        rw [utf8_step.eq_def]
        rw [if_neg (by omega), if_pos (by omega)]
        show (if utf8_b1_ok (0xC0 + cp / 64) (0x80 + cp % 64) then
            ((0xC0 + cp / 64 - 0xC0) * 64 + (0x80 + cp % 64 - 0x80), 1)
          else (0xFFFD, 0)) = (cp, 1)
        rw [if_pos (show utf8_b1_ok (0xC0 + cp / 64) (0x80 + cp % 64) by
          unfold utf8_b1_ok; omega)]
        have hv : (0xC0 + cp / 64 - 0xC0) * 64 + (0x80 + cp % 64 - 0x80) = cp := by omega
        rw [hv]
      rw [hstep]
      simp
    · by_cases h3 : cp < 0x10000
      · have henc : utf8_encode_cp cp
            = [0xE0 + cp / 4096, 0x80 + (cp / 64) % 64, 0x80 + cp % 64] := by
          rw [utf8_encode_cp, if_neg h1, if_neg h2, if_pos h3]
        rw [henc, List.cons_append, List.cons_append, List.cons_append, List.nil_append,
          utf8_lossy_decode]
        have hstep : utf8_step (0xE0 + cp / 4096)
            ((0x80 + (cp / 64) % 64) :: (0x80 + cp % 64) :: rest) = (cp, 2) := by
          rw [utf8_step.eq_def]
          rw [if_neg (by omega), if_neg (by omega), if_pos (by omega)]
          show (if utf8_b1_ok (0xE0 + cp / 4096) (0x80 + (cp / 64) % 64) ∧
                utf8_cont (0x80 + cp % 64) then
              ((0xE0 + cp / 4096 - 0xE0) * 4096 + (0x80 + (cp / 64) % 64 - 0x80) * 64 +
                (0x80 + cp % 64 - 0x80), 2)
            else (0xFFFD, 0)) = (cp, 2)
          rw [if_pos (show utf8_b1_ok (0xE0 + cp / 4096) (0x80 + (cp / 64) % 64) ∧
              utf8_cont (0x80 + cp % 64) by
            unfold utf8_b1_ok utf8_cont; omega)]
          have hv : (0xE0 + cp / 4096 - 0xE0) * 4096 + (0x80 + (cp / 64) % 64 - 0x80) * 64 +
              (0x80 + cp % 64 - 0x80) = cp := by omega
          rw [hv]
        rw [hstep]
        simp
      · have henc : utf8_encode_cp cp
            = [0xF0 + cp / 262144, 0x80 + (cp / 4096) % 64, 0x80 + (cp / 64) % 64,
               0x80 + cp % 64] := by
          rw [utf8_encode_cp, if_neg h1, if_neg h2, if_neg h3]
        rw [henc, List.cons_append, List.cons_append, List.cons_append, List.cons_append,
          List.nil_append, utf8_lossy_decode]
        have hstep : utf8_step (0xF0 + cp / 262144)
            ((0x80 + (cp / 4096) % 64) :: (0x80 + (cp / 64) % 64) :: (0x80 + cp % 64) :: rest)
            = (cp, 3) := by
          rw [utf8_step.eq_def]
          rw [if_neg (by omega), if_neg (by omega), if_neg (by omega), if_pos (by omega)]
          show (if utf8_b1_ok (0xF0 + cp / 262144) (0x80 + (cp / 4096) % 64) ∧
                utf8_cont (0x80 + (cp / 64) % 64) ∧ utf8_cont (0x80 + cp % 64) then
              ((0xF0 + cp / 262144 - 0xF0) * 262144 + (0x80 + (cp / 4096) % 64 - 0x80) * 4096 +
                (0x80 + (cp / 64) % 64 - 0x80) * 64 + (0x80 + cp % 64 - 0x80), 3)
            else (0xFFFD, 0)) = (cp, 3)
          rw [if_pos (show utf8_b1_ok (0xF0 + cp / 262144) (0x80 + (cp / 4096) % 64) ∧
              utf8_cont (0x80 + (cp / 64) % 64) ∧ utf8_cont (0x80 + cp % 64) by
            unfold utf8_b1_ok utf8_cont; omega)]
          have hv : (0xF0 + cp / 262144 - 0xF0) * 262144 +
              (0x80 + (cp / 4096) % 64 - 0x80) * 4096 +
              (0x80 + (cp / 64) % 64 - 0x80) * 64 + (0x80 + cp % 64 - 0x80) = cp := by omega
          rw [hv]
        rw [hstep]
        simp

theorem utf8_decode_encode (text : List Nat) (h : ∀ cp ∈ text, ValidScalar cp) :
    utf8_lossy_decode (utf8_encode text) = text := by
  induction text with
  | nil => rw [show utf8_encode [] = [] from rfl, utf8_lossy_decode]
  | cons cp rest ih =>
    rw [utf8_encode, List.flatMap_cons,
      utf8_roundtrip_cp cp (h cp (List.mem_cons_self _ _)) _]
    show cp :: utf8_lossy_decode (utf8_encode rest) = cp :: rest
    rw [ih (fun c hc => h c (List.mem_cons_of_mem _ hc))]

theorem utf8_encode_cp_bytes_lt (cp : Nat) (h : ValidScalar cp) :
    ∀ b ∈ utf8_encode_cp cp, b < 256 := by
  obtain ⟨hlt, _⟩ := h
  intro b hb
  rw [utf8_encode_cp] at hb
  by_cases h1 : cp < 0x80
  · rw [if_pos h1] at hb
    simp only [List.mem_cons, List.not_mem_nil, or_false] at hb
    omega
  · rw [if_neg h1] at hb
    by_cases h2 : cp < 0x800
    · rw [if_pos h2] at hb
      simp only [List.mem_cons, List.not_mem_nil, or_false] at hb
      rcases hb with rfl | rfl <;> omega
    · rw [if_neg h2] at hb
      by_cases h3 : cp < 0x10000
      · rw [if_pos h3] at hb
        simp only [List.mem_cons, List.not_mem_nil, or_false] at hb
        rcases hb with rfl | rfl | rfl <;> omega
      · rw [if_neg h3] at hb
        simp only [List.mem_cons, List.not_mem_nil, or_false] at hb
        rcases hb with rfl | rfl | rfl | rfl <;> omega

theorem utf8_encode_bytes_lt (text : List Nat) (h : ∀ cp ∈ text, ValidScalar cp) :
    ∀ b ∈ utf8_encode text, b < 256 := by
  induction text with
  | nil => intro b hb; cases hb
  | cons cp rest ih =>
    intro b hb
    rw [utf8_encode, List.flatMap_cons] at hb
    rcases List.mem_append.mp hb with hb1 | hb2
    · exact utf8_encode_cp_bytes_lt cp (h cp (List.mem_cons_self _ _)) b hb1
    · exact ih (fun c hc => h c (List.mem_cons_of_mem _ hc)) b hb2

/-! ## Base64 round trip -/

theorem b64_val_chr : ∀ v, v < 64 → b64_val (b64_chr v) = some v := by decide

theorem b64_chr_ne_pad : ∀ v, v < 64 → ¬ b64_chr v = '=' := by decide

theorem b64_chr_ne_nl : ∀ v, v < 64 → ¬ b64_chr v = '\n' := by decide

theorem base64_encode_no_nl (bs : List Nat) (h : ∀ b ∈ bs, b < 256) :
    '\n' ∉ base64_encode bs := by
  induction bs using base64_encode.induct with
  | case1 => intro hmem; cases hmem
  | case2 b0 =>
    intro hmem
    have hb0 : b0 < 256 := h b0 (by simp)
    rw [base64_encode] at hmem
    simp only [List.mem_cons, List.not_mem_nil, or_false] at hmem
    rcases hmem with h1 | h1 | h1 | h1
    · exact b64_chr_ne_nl _ (by omega) h1.symm
    · exact b64_chr_ne_nl _ (by omega) h1.symm
    · exact absurd h1 (by decide)
    · exact absurd h1 (by decide)
  | case3 b0 b1 =>
    intro hmem
    have hb0 : b0 < 256 := h b0 (by simp)
    have hb1 : b1 < 256 := h b1 (by simp)
    rw [base64_encode] at hmem
    simp only [List.mem_cons, List.not_mem_nil, or_false] at hmem
    rcases hmem with h1 | h1 | h1 | h1
    · exact b64_chr_ne_nl _ (by omega) h1.symm
    · exact b64_chr_ne_nl _ (by omega) h1.symm
    · exact b64_chr_ne_nl _ (by omega) h1.symm
    · exact absurd h1 (by decide)
  | case4 b0 b1 b2 rest ih =>
    intro hmem
    have hb0 : b0 < 256 := h b0 (by simp)
    have hb1 : b1 < 256 := h b1 (by simp)
    have hb2 : b2 < 256 := h b2 (by simp)
    rw [base64_encode] at hmem
    simp only [List.mem_cons] at hmem
    rcases hmem with h1 | h1 | h1 | h1 | h1
    · exact b64_chr_ne_nl _ (by omega) h1.symm
    · exact b64_chr_ne_nl _ (by omega) h1.symm
    · exact b64_chr_ne_nl _ (by omega) h1.symm
    · exact b64_chr_ne_nl _ (by omega) h1.symm
    · exact ih (fun b hb => h b (by simp [hb])) h1

theorem base64_roundtrip (bs : List Nat) (h : ∀ b ∈ bs, b < 256) :
    base64_decode (base64_encode bs) = some bs := by
  induction bs using base64_encode.induct with
  | case1 => rfl
  | case2 b0 =>
    have hb0 : b0 < 256 := h b0 (by simp)
    have e0 : b64_val (b64_chr (b0 / 4)) = some (b0 / 4) := b64_val_chr _ (by omega)
    have e1 : b64_val (b64_chr ((b0 % 4) * 16)) = some ((b0 % 4) * 16) :=
      b64_val_chr _ (by omega)
    rw [base64_encode, base64_decode]
    simp [e0, e1]
    omega
  | case3 b0 b1 =>
    have hb0 : b0 < 256 := h b0 (by simp)
    have hb1 : b1 < 256 := h b1 (by simp)
    have e0 : b64_val (b64_chr (b0 / 4)) = some (b0 / 4) := b64_val_chr _ (by omega)
    have e1 : b64_val (b64_chr ((b0 % 4) * 16 + b1 / 16)) = some ((b0 % 4) * 16 + b1 / 16) :=
      b64_val_chr _ (by omega)
    have e2 : b64_val (b64_chr ((b1 % 16) * 4)) = some ((b1 % 16) * 4) :=
      b64_val_chr _ (by omega)
    have hne : ¬ b64_chr ((b1 % 16) * 4) = '=' := b64_chr_ne_pad _ (by omega)
    rw [base64_encode, base64_decode]
    simp [e0, e1, e2, hne]
    omega
  | case4 b0 b1 b2 rest ih =>
    have hb0 : b0 < 256 := h b0 (by simp)
    have hb1 : b1 < 256 := h b1 (by simp)
    have hb2 : b2 < 256 := h b2 (by simp)
    have e0 : b64_val (b64_chr (b0 / 4)) = some (b0 / 4) := b64_val_chr _ (by omega)
    have e1 : b64_val (b64_chr ((b0 % 4) * 16 + b1 / 16)) = some ((b0 % 4) * 16 + b1 / 16) :=
      b64_val_chr _ (by omega)
    have e2 : b64_val (b64_chr ((b1 % 16) * 4 + b2 / 64)) = some ((b1 % 16) * 4 + b2 / 64) :=
      b64_val_chr _ (by omega)
    have e3 : b64_val (b64_chr (b2 % 64)) = some (b2 % 64) := b64_val_chr _ (by omega)
    have hne2 : ¬ b64_chr ((b1 % 16) * 4 + b2 / 64) = '=' := b64_chr_ne_pad _ (by omega)
    have hne3 : ¬ b64_chr (b2 % 64) = '=' := b64_chr_ne_pad _ (by omega)
    have hih := ih (fun b hb => h b (by simp [hb]))
    rw [base64_encode, base64_decode]
    simp [e0, e1, e2, e3, hne2, hne3, hih]
    refine ⟨by omega, by omega, by omega⟩

/-! ## Stripping the line wrap recovers the base64 payload -/

theorem strip_line_wrap_aux (n : Nat) (cs : List Char) (h : '\n' ∉ cs) :
    ∀ k, strip_newlines (line_wrap_aux n k cs) = cs := by
  induction cs with
  | nil => intro k; rw [line_wrap_aux]; rfl
  | cons c rest ih =>
    have hc : ¬ c = '\n' := fun hh => h (hh ▸ List.mem_cons_self _ _)
    have hrest : '\n' ∉ rest := fun hh => h (List.mem_cons_of_mem _ hh)
    have hcb : (c != '\n') = true := by simp [hc]
    intro k
    cases k with
    | zero =>
      rw [line_wrap_aux, strip_newlines, List.filter_cons, List.filter_cons]
      rw [if_neg (by decide : ¬ ((('\n' : Char) != '\n') = true)), if_pos hcb]
      exact congrArg (c :: ·) (ih hrest (n - 1))
    | succ k' =>
      rw [line_wrap_aux, strip_newlines, List.filter_cons]
      rw [if_pos hcb]
      exact congrArg (c :: ·) (ih hrest k')

theorem strip_line_wrap (n : Nat) (cs : List Char) (h : '\n' ∉ cs) :
    strip_newlines (line_wrap n cs) = cs := by
  cases cs with
  | nil => rfl
  | cons c rest =>
    have hc : ¬ c = '\n' := fun hh => h (hh ▸ List.mem_cons_self _ _)
    have hrest : '\n' ∉ rest := fun hh => h (List.mem_cons_of_mem _ hh)
    have hcb : (c != '\n') = true := by simp [hc]
    rw [line_wrap, strip_newlines, List.filter_cons]
    rw [if_pos hcb]
    exact congrArg (c :: ·) (strip_line_wrap_aux n rest hrest (n - 1))

/-- C6: for every valid Unicode text, line-wrapping its base64-encoded
UTF-8 bytes, then stripping embedded newlines, base64-decoding and
lossily converting back — the decode pipeline of `fetch_file_content` —
reproduces the original text exactly. -/
theorem c6_fetch_content_roundtrip (text : List Nat) (h : ∀ cp ∈ text, ValidScalar cp) :
    decode_fetched_payload (line_wrap 60 (base64_encode (utf8_encode text))) = some text := by
  have hbytes : ∀ b ∈ utf8_encode text, b < 256 := utf8_encode_bytes_lt text h
  have hnl : '\n' ∉ base64_encode (utf8_encode text) := base64_encode_no_nl _ hbytes
  rw [decode_fetched_payload, strip_line_wrap 60 _ hnl, base64_roundtrip _ hbytes]
  show some (utf8_lossy_decode (utf8_encode text)) = some text
  rw [utf8_decode_encode text h]

/-- C6 witness: the pipeline evaluated on a text exercising 1-, 2-, 3-
and 4-byte UTF-8 sequences. -/
theorem c6_fetch_content_roundtrip_witness :
    decode_fetched_payload
        (line_wrap 60 (base64_encode (utf8_encode [72, 105, 0xE9, 0x4E2D, 0x1F600])))
      = some [72, 105, 0xE9, 0x4E2D, 0x1F600] :=
  c6_fetch_content_roundtrip [72, 105, 0xE9, 0x4E2D, 0x1F600] (by decide)
